import Mathlib

/-!
Verification of the mcp-pptx rendering pipeline.

Shallow embedding of the Python sources under `src/mcp_pptx/`:
`rendering/theme_applicator.py`, `rendering/renderer.py`,
`rendering/layouts.py`, `rendering/content_fillers.py` and
`models/deck_spec.py`.  Strings are modelled as `List Char` (Python `str`),
Python dicts as association lists preserving insertion order, and the few
fallible operations as `Option`.  Python whitespace handling (`str.strip`,
`str.split`, `int(_, 16)`) is modelled over the ASCII whitespace characters.
-/

namespace McpPptx

/-- Python whitespace test restricted to the ASCII whitespace characters
used by `str.strip`, `str.split` and `int`. -/
def pyIsSpace (c : Char) : Bool :=
  c = ' ' || c = '\t' || c = '\n' || c = '\r' || c = Char.ofNat 11 || c = Char.ofNat 12

/-- Python `str.lstrip()` (whitespace form). -/
def lstripWs (l : List Char) : List Char := l.dropWhile pyIsSpace

/-- Python `str.rstrip()` (whitespace form). -/
def rstripWs (l : List Char) : List Char := (l.reverse.dropWhile pyIsSpace).reverse

/-- Python `str.strip()` (whitespace form). -/
def stripWs (l : List Char) : List Char := lstripWs (rstripWs l)

/-- Worker for `pySplitWs`; `cur` is the current word, reversed. -/
def splitWsAux : List Char → List Char → List (List Char)
  | cur, [] => match cur with
    | [] => []
    | _ => [cur.reverse]
  | cur, c :: rest =>
    if pyIsSpace c then
      match cur with
      | [] => splitWsAux [] rest
      | _ => cur.reverse :: splitWsAux [] rest
    else splitWsAux (c :: cur) rest

/-- Python `str.split()` with no argument: split on runs of whitespace,
dropping empty words. -/
def pySplitWs (l : List Char) : List (List Char) := splitWsAux [] l

/-- Index of the first occurrence of character `ch` (Python `str.index`),
`none` when absent (Python `ch in s` is false). -/
def firstIdxOf (ch : Char) : List Char → Option Nat
  | [] => none
  | c :: rest => if c = ch then some 0 else (firstIdxOf ch rest).map (· + 1)

/-- Index of the first occurrence of `needle` as a contiguous substring of
the suffix of `hay` starting at offset `i`. -/
def findSubAux (needle : List Char) : Nat → List Char → Option Nat
  | i, [] => if needle.isEmpty then some i else none
  | i, c :: rest =>
    if needle.isPrefixOf (c :: rest) then some i else findSubAux needle (i + 1) rest

/-- Index of the first occurrence of `needle` inside `hay`
(Python `hay.index(needle)`); `none` when `needle not in hay`. -/
def findSub (hay needle : List Char) : Option Nat := findSubAux needle 0 hay

/-- Python `code.split('\n')`: split on every newline, keeping empty lines;
the empty string gives one empty line. -/
def splitNl : List Char → List (List Char)
  | [] => [[]]
  | c :: rest =>
    if c = '\n' then [] :: splitNl rest
    else match splitNl rest with
      | [] => [[c]]
      | l :: ls => (c :: l) :: ls

/-- Python `'\n'.join(lines)`. -/
def joinNl : List (List Char) → List Char
  | [] => []
  | [l] => l
  | l :: ls => l ++ '\n' :: joinNl ls

/-! ## Theme applicator (`rendering/theme_applicator.py`) -/

/-- Hexadecimal digit test (`0-9a-fA-F`, code points 48-57, 97-102, 65-70),
the digits accepted by Python `int(_, 16)`. -/
def isHexDig (c : Char) : Bool :=
  decide ((48 ≤ c.toNat ∧ c.toNat ≤ 57) ∨ (97 ≤ c.toNat ∧ c.toNat ≤ 102)
    ∨ (65 ≤ c.toNat ∧ c.toNat ≤ 70))

/-- Value of a hexadecimal digit. -/
def hexVal (c : Char) : Nat :=
  if 48 ≤ c.toNat ∧ c.toNat ≤ 57 then c.toNat - 48
  else if 97 ≤ c.toNat ∧ c.toNat ≤ 102 then c.toNat - 97 + 10
  else c.toNat - 65 + 10

/-- Python `int(g, 16)` on a 2-character string: two hex digits, or a single
hex digit with a leading sign or surrounded by one whitespace character
(Python permits a sign and surrounding whitespace); anything else raises
`ValueError`, modelled as `none`. -/
def pyIntHex2 (g : List Char) : Option Int :=
  match g with
  | [c0, c1] =>
    if isHexDig c0 && isHexDig c1 then some (16 * (hexVal c0 : Int) + hexVal c1)
    else if c0 = '+' && isHexDig c1 then some (hexVal c1)
    else if c0 = '-' && isHexDig c1 then some (-(hexVal c1 : Int))
    else if pyIsSpace c0 && isHexDig c1 then some (hexVal c1)
    else if isHexDig c0 && pyIsSpace c1 then some (hexVal c0)
    else none
  | _ => none

/-- An RGB color triple, the result of `pptx.dml.color.RGBColor`. -/
def RGB := Nat × Nat × Nat
deriving DecidableEq, Repr

/-- The parsing part of `hex_to_rgb` on the 6-character text: parse the
three 2-character groups (`hex[0:2]`, `hex[2:4]`, `hex[4:6]`) with
`int(_, 16)` and build `RGBColor`, whose constructor rejects values outside
`0..255` with a `ValueError`; any `ValueError` is caught and yields
black. -/
def hexCore (h : List Char) : RGB :=
  match pyIntHex2 (h.take 2), pyIntHex2 ((h.drop 2).take 2), pyIntHex2 ((h.drop 4).take 2) with
  | some r, some g, some b =>
    if 0 ≤ r ∧ r ≤ 255 ∧ 0 ≤ g ∧ g ≤ 255 ∧ 0 ≤ b ∧ b ≤ 255 then
      ((r.toNat, g.toNat, b.toNat) : RGB)
    else ((0, 0, 0) : RGB)
  | _, _, _ => ((0, 0, 0) : RGB)

/-- `ThemeApplicator.hex_to_rgb`: strip all leading `#` (Python
`lstrip('#')`), substitute `'000000'` when the remainder is not 6
characters, then parse. -/
def hex_to_rgb (s : String) : RGB :=
  hexCore (if (s.data.dropWhile (· = '#')).length ≠ 6
    then ('0' :: '0' :: '0' :: '0' :: '0' :: '0' :: [])
    else s.data.dropWhile (· = '#'))

/-- The five named colors of a `ColorPalette` (`models/theme_spec.py`). -/
structure ColorPalette where
  primary : String
  secondary : String
  accent : String
  background : String
  text : String
deriving DecidableEq, Repr

/-- The section color rotation list of
`ThemeApplicator.apply_slide_background`. -/
def sectionColors (pal : ColorPalette) : List String :=
  [pal.accent, pal.primary, pal.secondary]

/-- `ThemeApplicator.apply_slide_background`, with the mutable
`section_count` made explicit: given the current counter and the layout-type
string, return the background color applied to the slide together with the
updated counter. -/
def apply_slide_background (pal : ColorPalette) (count : Nat) (layout_type : String) :
    RGB × Nat :=
  if layout_type = "TITLE" then (hex_to_rgb pal.primary, count)
  else if layout_type = "SECTION" then
    let colors := sectionColors pal
    let colorIndex := count % colors.length
    (hex_to_rgb (colors.getD colorIndex ""), count + 1)
  else if layout_type = "CODE" then (hex_to_rgb pal.background, count)
  else (hex_to_rgb pal.background, count)

/-! ## Layout types (`models/deck_spec.py`) -/

/-- The `LayoutType` enumeration. -/
inductive LayoutType where
  | TITLE | TITLE_CONTENT | SECTION | TWO_COL | IMAGE_FOCUS
  | TABLE | CHART | CODE | BLANK
deriving DecidableEq, Repr

/-- The string value of each `LayoutType` member. -/
def LayoutType.value : LayoutType → String
  | .TITLE => "TITLE"
  | .TITLE_CONTENT => "TITLE_CONTENT"
  | .SECTION => "SECTION"
  | .TWO_COL => "TWO_COL"
  | .IMAGE_FOCUS => "IMAGE_FOCUS"
  | .TABLE => "TABLE"
  | .CHART => "CHART"
  | .CODE => "CODE"
  | .BLANK => "BLANK"

/-- Pydantic lookup of a `LayoutType` member by value; `none` raises a
`ValidationError`. -/
def LayoutType.ofValue? (s : String) : Option LayoutType :=
  if s = "TITLE" then some .TITLE
  else if s = "TITLE_CONTENT" then some .TITLE_CONTENT
  else if s = "SECTION" then some .SECTION
  else if s = "TWO_COL" then some .TWO_COL
  else if s = "IMAGE_FOCUS" then some .IMAGE_FOCUS
  else if s = "TABLE" then some .TABLE
  else if s = "CHART" then some .CHART
  else if s = "CODE" then some .CODE
  else if s = "BLANK" then some .BLANK
  else none

/-- The list of backgrounds produced when the renderer loop applies
`apply_slide_background` to each slide of a deck in order, threading the
section counter, as `PresentationRenderer.generate_presentation` does. -/
def bgLoop (pal : ColorPalette) (count : Nat) : List LayoutType → List RGB
  | [] => []
  | lt :: rest =>
    let r := apply_slide_background pal count lt.value
    r.1 :: bgLoop pal r.2 rest

/-- Backgrounds of one deck generation: the renderer resets
`section_count` to `0` before the slide loop
(`renderer.py`, `self.theme_applicator.section_count = 0`). -/
def renderBackgrounds (pal : ColorPalette) (slides : List LayoutType) : List RGB :=
  bgLoop pal 0 slides

/-! ## Layout manager (`rendering/layouts.py`) -/

/-- ASCII lowercase of a character list (Python `str.lower()` on the ASCII
layout names involved). -/
def lowerChars (l : List Char) : List Char := l.map Char.toLower

/-- Python `needle in hay` on strings: contiguous substring test. -/
def containsSub (hay needle : List Char) : Bool := (findSub hay needle).isSome

/-- `LayoutManager.LAYOUT_MAPPINGS`: the fixed index of each layout type.
`dict.get` returns `None` for `CODE`, which has no entry. -/
def layoutMapping : LayoutType → Option Nat
  | .TITLE => some 0
  | .TITLE_CONTENT => some 1
  | .SECTION => some 2
  | .TWO_COL => some 3
  | .IMAGE_FOCUS => some 1
  | .TABLE => some 1
  | .CHART => some 1
  | .BLANK => some 6
  | .CODE => none

/-- The `layout_names` candidate lists of `LayoutManager.get_layout`; types
absent from the dict get `none`. -/
def layoutNames : LayoutType → Option (List String)
  | .TITLE => some ["Title Slide", "Title Only"]
  | .TITLE_CONTENT => some ["Title and Content", "Content with Caption"]
  | .SECTION => some ["Section Header", "Title Only"]
  | .TWO_COL => some ["Two Content", "Comparison"]
  | .BLANK => some ["Blank"]
  | _ => none

/-- The name-search tier of `get_layout`: for each candidate name in order,
return the first layout whose lowercased name contains the lowercased
candidate. -/
def findByName (layouts : List String) : List String → Option Nat
  | [] => none
  | c :: rest =>
    match layouts.findIdx? (fun n => containsSub (lowerChars n.data) (lowerChars c.data)) with
    | some i => some i
    | none => findByName layouts rest

/-- The two final fallback tiers of `get_layout`: index 1 when more than one
layout exists, else index 0 when any layout exists, else `None`. -/
def layoutFallback (layouts : List String) : Option Nat :=
  if 1 < layouts.length then some 1
  else if 0 < layouts.length then some 0
  else none

/-- Tiers (b)-(d) of `get_layout`: the name search when the type has
candidate names, then the index fallbacks. -/
def nameTierSearch (layouts : List String) (lt : LayoutType) : Option Nat :=
  match layoutNames lt with
  | some cands =>
    match findByName layouts cands with
    | some i => some i
    | none => layoutFallback layouts
  | none => layoutFallback layouts

/-- `LayoutManager.get_layout`, with the presentation represented by the
list of its slide-layout names and the returned layout by its index:
(a) the fixed index when present and in range, (b) the case-insensitive
name search, (c) index 1, (d) index 0, (e) `None`. -/
def get_layout (layouts : List String) (lt : LayoutType) : Option Nat :=
  match layoutMapping lt with
  | some idx => if idx < layouts.length then some idx else nameTierSearch layouts lt
  | none => nameTierSearch layouts lt

/-! ## Specification normalizer (`models/deck_spec.py`) -/

/-- `SlideSpec.normalize_layout` on a string: uppercase, then replace
hyphens and spaces with underscores (Python `upper`, `replace('-','_')`,
`replace(' ','_')`; uppercasing modelled on ASCII). -/
def normalize_layout (s : String) : String :=
  String.mk (((s.data.map Char.toUpper).map fun c => if c = '-' then '_' else c).map
    fun c => if c = ' ' then '_' else c)

/-- Pydantic validation of the `layout` field of a slide: the
`normalize_layout` validator runs first, then the enum lookup; an unknown
value raises a `ValidationError`. -/
def parseLayoutField (v : String) : Option LayoutType :=
  LayoutType.ofValue? (normalize_layout v)

/-- The result envelope of the `generate_presentation` tool. -/
structure GenResult where
  ok : Bool
  slides_generated : Nat
  warnings : List String
deriving DecidableEq, Repr

/-- Pydantic validation of all slide layout fields of a deck: every field
must parse, otherwise the whole `model_validate` call raises. -/
def validateLayouts : List String → Option (List LayoutType)
  | [] => some []
  | v :: rest =>
    match parseLayoutField v, validateLayouts rest with
    | some lt, some lts => some (lt :: lts)
    | _, _ => none

/-- `MCPPPTXServer._generate_presentation` restricted to the layout fields
of a deck: `DeckSpec.model_validate` validates every slide's layout; a
`ValidationError` is caught and converted to the failure envelope
(`ok=False`, zero slides, no warnings); on success every slide renders. -/
def generate_tool (layoutFields : List String) : GenResult :=
  match validateLayouts layoutFields with
  | none => ⟨false, 0, []⟩
  | some lts => ⟨true, lts.length, []⟩

/-! ## Content filler: bold-prefix heuristic (`rendering/content_fillers.py`) -/

/-- `ContentFiller._split_bullet_with_colon`: if the bullet contains `':'`
and the stripped text before the first `':'` has 1 to 4 whitespace-separated
words, return the text up to and including the colon (plus a trailing space
when non-whitespace text follows) and the remainder (left-stripped in that
case); otherwise `(None, None)`. -/
def split_bullet_with_colon (b : List Char) : Option (List Char × List Char) :=
  match firstIdxOf ':' b with
  | none => none
  | some i =>
    if 1 ≤ (pySplitWs (stripWs (b.take i))).length
        ∧ (pySplitWs (stripWs (b.take i))).length ≤ 4 then
      if (stripWs (b.drop (i + 1))).isEmpty then some (b.take (i + 1), b.drop (i + 1))
      else some (b.take (i + 1) ++ [' '], lstripWs (b.drop (i + 1)))
    else none

/-- `ContentFiller._split_bullet_with_dash`: same shape for the literal
separator `" - "`, the bold part being the stripped text before it plus
`" -"`. -/
def split_bullet_with_dash (b : List Char) : Option (List Char × List Char) :=
  match findSub b (' ' :: '-' :: ' ' :: []) with
  | none => none
  | some i =>
    if 1 ≤ (pySplitWs (stripWs (b.take i))).length
        ∧ (pySplitWs (stripWs (b.take i))).length ≤ 4 then
      if (stripWs (b.drop (i + 3))).isEmpty then
        some (stripWs (b.take i) ++ (' ' :: '-' :: []), b.drop (i + 3))
      else some (stripWs (b.take i) ++ (' ' :: '-' :: ' ' :: []), lstripWs (b.drop (i + 3)))
    else none

/-- `ContentFiller._split_bullet_for_bold`: try the colon rule, then the
dash rule; `none` models the `(None, None)` result. -/
def split_bullet_for_bold (b : List Char) : Option (List Char × List Char) :=
  match split_bullet_with_colon b with
  | some r => some r
  | none => split_bullet_with_dash b

/-- `_split_bullet_for_bold` on `String`s. -/
def split_bullet_for_bold_str (s : String) : Option (String × String) :=
  (split_bullet_for_bold s.data).map fun p => (String.mk p.1, String.mk p.2)

/-! ## Content filler: code chunking -/

/-- The accumulation loop of `ContentFiller._split_code_into_chunks`: append
each line to the current chunk, emit the chunk once it reaches
`maxLines` lines, and flush a non-empty remainder at the end.  Chunks are
kept as line lists; the caller joins them with `'\n'`. -/
def buildChunks (maxLines : Nat) : List (List Char) → List (List Char) → List (List (List Char))
  | acc, [] => match acc with
    | [] => []
    | _ => [acc]
  | acc, line :: rest =>
    let acc' := acc ++ [line]
    if maxLines ≤ acc'.length then acc' :: buildChunks maxLines [] rest
    else buildChunks maxLines acc' rest

/-- `ContentFiller._split_code_into_chunks`: split on newlines; return the
original string as the only chunk when within the limit, otherwise the
greedily accumulated chunks joined with newlines. -/
def split_code_into_chunks (code : String) (maxLines : Nat) : List String :=
  let lines := splitNl code.data
  if lines.length ≤ maxLines then [code]
  else (buildChunks maxLines [] lines).map fun ch => String.mk (joinNl ch)

/-! ## Content model (`models/deck_spec.py`) -/

/-- The `ContentType` enumeration. -/
inductive ContentType where
  | text | bullets | image | table | chart | code
deriving DecidableEq, Repr

/-- Pydantic lookup of a `ContentType` member by value. -/
def ContentType.ofValue? (s : String) : Option ContentType :=
  if s = "text" then some .text
  else if s = "bullets" then some .bullets
  else if s = "image" then some .image
  else if s = "table" then some .table
  else if s = "chart" then some .chart
  else if s = "code" then some .code
  else none

/-- The `ContentPosition` enumeration. -/
inductive ContentPosition where
  | title | subtitle | body
deriving DecidableEq, Repr

/-- The fields of a validated `SlideContent` relevant to body grouping:
`type` (defaulting to text), and the optional `text`, `bullets`, `left`,
`right` and `position` payloads. -/
structure SlideContent where
  type : ContentType
  text : Option String
  bullets : Option (List String)
  left : Option (List String)
  right : Option (List String)
  position : Option ContentPosition
deriving DecidableEq, Repr

/-- A plain-text content item as produced by string normalization. -/
def textItem (s : String) : SlideContent := ⟨.text, some s, none, none, none, none⟩

/-- A bullets content item as produced by the grouping step
(`SlideContent(type=ContentType.BULLETS, bullets=...)`). -/
def bulletsItem (l : List String) : SlideContent := ⟨.bullets, none, some l, none, none, none⟩

/-- Python truthiness of an optional string (`None` and `""` are falsy). -/
def truthyStr : Option String → Bool
  | none => false
  | some s => ¬ s.isEmpty

/-- Python truthiness of an optional list (`None` and `[]` are falsy). -/
def truthyList : Option (List String) → Bool
  | none => false
  | some l => ¬ l.isEmpty

/-- The `is_simple_text` test of `ContentFiller._group_text_items_as_bullets`:
a text item with truthy text and no left/right payload. -/
def isSimpleText (it : SlideContent) : Bool :=
  it.type = ContentType.text && truthyStr it.text &&
    !truthyList it.left && !truthyList it.right

/-- `ContentFiller._group_text_items_as_bullets`: partition the items into
simple-text items and others; 2+ texts with no others merge into one bullets
item; with others present the texts still merge (or, for a single text, the
FIRST item of the input list is appended) followed by the other items; no
texts leaves the list unchanged. -/
def group_text_items_as_bullets (items : List SlideContent) : List SlideContent :=
  match items with
  | [] => []
  | it0 :: _ =>
    let textTexts := items.filterMap fun it =>
      if isSimpleText it then it.text else none
    let otherItems := items.filter fun it => !isSimpleText it
    if 1 < textTexts.length ∧ otherItems.isEmpty then [bulletsItem textTexts]
    else if 0 < textTexts.length then
      (if 1 < textTexts.length then [bulletsItem textTexts] else [it0]) ++ otherItems
    else items

/-! ## Content normalization (`SlideSpec.normalize_content`) -/

/-- JSON-like Python values fed to `normalize_content`: strings, lists and
dicts (association lists in insertion order). -/
inductive PyVal where
  | str : String → PyVal
  | list : List PyVal → PyVal
  | dict : List (String × PyVal) → PyVal

/-- Python `k in d` on a dict. -/
def hasKey (d : List (String × PyVal)) (k : String) : Bool := d.any fun p => p.1 = k

/-- Python `d.get(k)` / `d[k]` on a dict. -/
def getKey? (d : List (String × PyVal)) (k : String) : Option PyVal :=
  (d.find? fun p => p.1 = k).map fun p => p.2

/-- Python `d.pop(k)` (removal part): drop the entry with key `k`. -/
def eraseKey (d : List (String × PyVal)) (k : String) : List (String × PyVal) :=
  d.filter fun p => p.1 ≠ k

/-- One dict item of the `normalize_content` loop: rename `items` to
`bullets` when `bullets` is absent (appending the renamed key, as Python
dict insertion does), then add a default `type` inferred from the present
keys when `type` is absent. -/
def normDict (d : List (String × PyVal)) : List (String × PyVal) :=
  let d1 :=
    if hasKey d "items" ∧ ¬ hasKey d "bullets" then
      match getKey? d "items" with
      | some v => eraseKey d "items" ++ [("bullets", v)]
      | none => d
    else d
  if hasKey d1 "type" then d1
  else if hasKey d1 "bullets" ∨ hasKey d1 "items" then d1 ++ [("type", .str "bullets")]
  else if hasKey d1 "left" ∨ hasKey d1 "right" then d1 ++ [("type", .str "text")]
  else d1 ++ [("type", .str "text")]

/-- The per-item loop of `normalize_content`: dicts are normalized, strings
become text items (empty/whitespace-only strings are dropped), anything
else is passed through. -/
def normItems : List PyVal → List PyVal
  | [] => []
  | .dict d :: rest => .dict (normDict d) :: normItems rest
  | .str s :: rest =>
    if (stripWs s.data).isEmpty then normItems rest
    else .dict [("type", .str "text"), ("text", .str s)] :: normItems rest
  | v :: rest => v :: normItems rest

/-- `SlideSpec.normalize_content`: a dict with `left`/`right` keys becomes a
single two-column item (with default type `text`); any other dict is wrapped
in a list; lists are normalized item by item; other values are returned
unchanged for the schema layer to reject. -/
def normalize_content : PyVal → PyVal
  | .dict d =>
    if hasKey d "left" ∨ hasKey d "right" then
      .list [.dict (if hasKey d "type" then d else d ++ [("type", .str "text")])]
    else .list (normItems [.dict d])
  | .list l => .list (normItems l)
  | .str s => .str s

/-- A string payload. -/
def pyStr? : PyVal → Option String
  | .str s => some s
  | _ => none

/-- A list-of-strings payload. -/
def pyStrList? : PyVal → Option (List String)
  | .list l => l.mapM pyStr?
  | _ => none

/-- Pydantic lookup of a `ContentPosition` member by value. -/
def ContentPosition.ofValue? (s : String) : Option ContentPosition :=
  if s = "title" then some .title
  else if s = "subtitle" then some .subtitle
  else if s = "body" then some .body
  else none

/-- Modelled from the pydantic field declarations of `SlideContent`
(`models/deck_spec.py`, lines 86-99): validation of one normalized content
dict into a `SlideContent`, with `type` defaulting to `text` and the other
modelled fields defaulting to `None`. -/
def slideContentOfDict (d : List (String × PyVal)) : Option SlideContent := do
  let ty ← match getKey? d "type" with
    | none => some ContentType.text
    | some v => pyStr? v >>= ContentType.ofValue?
  let tx ← match getKey? d "text" with
    | none => some none
    | some v => (pyStr? v).map some
  let bl ← match getKey? d "bullets" with
    | none => some none
    | some v => (pyStrList? v).map some
  let lf ← match getKey? d "left" with
    | none => some none
    | some v => (pyStrList? v).map some
  let rt ← match getKey? d "right" with
    | none => some none
    | some v => (pyStrList? v).map some
  let pos ← match getKey? d "position" with
    | none => some none
    | some v => (pyStr? v >>= ContentPosition.ofValue?).map some
  pure ⟨ty, tx, bl, lf, rt, pos⟩

/-- Validation of a normalized content list into `SlideContent` values. -/
def slideContentsOfNorm : PyVal → Option (List SlideContent)
  | .list l => l.mapM fun v =>
    match v with
    | .dict d => slideContentOfDict d
    | _ => none
  | _ => none

/-! ## Renderer slide loop (`renderer.py`, `generate_presentation`) -/

/-- The warning appended when rendering a slide raises: Python
`f"Failed to generate slide {slides_generated + 1}: ..."`, with
`slides_generated + 1` passed as argument (the message tail is omitted). -/
def failWarning (k : Nat) : String := "Failed to generate slide " ++ toString k

/-- The per-slide loop of `generate_presentation` with the slides abstracted
to their count `n` and an oracle `fails` telling which 0-based slide indices
raise inside the per-slide `try` (before `slides_generated += 1`): returns
the final `slides_generated`, the failure warnings in order, and for each
successful slide the pair (1-based input position, displayed slide number as
passed to `_add_footer_and_slide_number`). -/
def renderLoop (fails : Nat → Bool) : Nat → Nat → Nat → Nat × List String × List (Nat × Nat)
  | _, g, 0 => (g, [], [])
  | i, g, Nat.succ n =>
    if fails i then
      let r := renderLoop fails (i + 1) g n
      (r.1, failWarning (g + 1) :: r.2.1, r.2.2)
    else
      let r := renderLoop fails (i + 1) (g + 1) n
      (r.1, r.2.1, (i + 1, g + 1) :: r.2.2)

/-- The renderer outcome for one generation call in which no fatal error
occurs outside the per-slide boundary. -/
structure RenderOutcome where
  ok : Bool
  slides_generated : Nat
  warnings : List String
  slideNumbers : List (Nat × Nat)
deriving DecidableEq, Repr

/-- `generate_presentation` for a deck of `n` slides with per-slide failure
oracle `fails`: the loop starts at position 0 with zero slides generated,
and the envelope keeps `ok = True` (per-slide exceptions are caught inside
the loop). -/
def generate_presentation (fails : Nat → Bool) (n : Nat) : RenderOutcome :=
  let r := renderLoop fails 0 0 n
  ⟨true, r.1, r.2.1, r.2.2⟩

/-- Number of non-failing slide indices in `[i, i + n)`. -/
def succCount (fails : Nat → Bool) : Nat → Nat → Nat
  | _, 0 => 0
  | i, Nat.succ n => (if fails i then 0 else 1) + succCount fails (i + 1) n

/-! ## Specification-side definitions

These are written from the specification text, to be compared with the
definitions embedded from the source. -/

/-- The dash rule worded from the spec: the text before the first `" - "`
must split on whitespace into 1 to 4 words (no preliminary strip); output as
in the source. -/
def dashRuleSpec (b : List Char) : Option (List Char × List Char) :=
  match findSub b (' ' :: '-' :: ' ' :: []) with
  | none => none
  | some i =>
    if 1 ≤ (pySplitWs (b.take i)).length ∧ (pySplitWs (b.take i)).length ≤ 4 then
      if (stripWs (b.drop (i + 3))).isEmpty then
        some (stripWs (b.take i) ++ (' ' :: '-' :: []), b.drop (i + 3))
      else some (stripWs (b.take i) ++ (' ' :: '-' :: ' ' :: []), lstripWs (b.drop (i + 3)))
    else none

/-- The bold-prefix split worded from the claim: the colon rule applies
first, when the line contains `':'` and the text before the first `':'`
splits on whitespace into 1 to 4 words; the result is the prefix plus the
colon (plus a trailing space when non-whitespace text follows, with the
remainder then left-stripped); only when the colon rule does not match is
the dash rule tried; otherwise no split. -/
def splitForBoldSpec (b : List Char) : Option (List Char × List Char) :=
  match firstIdxOf ':' b with
  | some i =>
    if 1 ≤ (pySplitWs (b.take i)).length ∧ (pySplitWs (b.take i)).length ≤ 4 then
      if (stripWs (b.drop (i + 1))).isEmpty then some (b.take i ++ [':'], b.drop (i + 1))
      else some (b.take i ++ (':' :: ' ' :: []), lstripWs (b.drop (i + 1)))
    else dashRuleSpec b
  | none => dashRuleSpec b

/-- The fixed index that claim C4 assigns to each layout type (the other
types falling back to index 1). -/
def expectedLayoutIdx : LayoutType → Nat
  | .TITLE => 0
  | .TITLE_CONTENT => 1
  | .SECTION => 2
  | .TWO_COL => 3
  | .BLANK => 6
  | _ => 1

/-- Value of a two-hex-digit byte, for the spec-side reading of color
parsing. -/
def hexByteVal : List Char → Nat
  | a :: b :: _ => 16 * hexVal a + hexVal b
  | _ => 0

/-- Number of SECTION slides of a deck. -/
def numSections (slides : List LayoutType) : Nat :=
  slides.countP fun lt => lt = LayoutType.SECTION

/-- The backgrounds applied to the SECTION slides of a deck, in slide
order. -/
def sectionBackgrounds (pal : ColorPalette) (slides : List LayoutType) : List RGB :=
  ((slides.zip (renderBackgrounds pal slides)).filter
    fun p => p.1 = LayoutType.SECTION).map fun p => p.2

/-- A 50-line script (49 newlines). -/
def code50 : String := String.intercalate "\n" (List.replicate 50 "line of code")

/-- A 10-line script (9 newlines). -/
def code10 : String := String.intercalate "\n" (List.replicate 10 "line of code")

/-! ## Lemmas about the section color rotation -/

lemma apply_slide_background_of_section (pal : ColorPalette) (c : Nat) :
    apply_slide_background pal c LayoutType.SECTION.value
      = (hex_to_rgb ((sectionColors pal).getD (c % 3) ""), c + 1) := by
  simp [apply_slide_background, LayoutType.value, sectionColors]

lemma apply_slide_background_of_ne_section (pal : ColorPalette) (c : Nat)
    (lt : LayoutType) (h : lt ≠ LayoutType.SECTION) :
    (apply_slide_background pal c lt.value).2 = c := by
  cases lt <;> simp_all [apply_slide_background, LayoutType.value]

lemma bgLoop_sections (pal : ColorPalette) :
    ∀ (slides : List LayoutType) (c : Nat),
      ((slides.zip (bgLoop pal c slides)).filter
          fun p => p.1 = LayoutType.SECTION).map (fun p => p.2)
        = (List.range (numSections slides)).map
            (fun k => hex_to_rgb ((sectionColors pal).getD ((c + k) % 3) ""))
  | [], c => by simp [bgLoop, numSections]
  | lt :: rest, c => by
    by_cases h : lt = LayoutType.SECTION
    · subst h
      rw [show bgLoop pal c (LayoutType.SECTION :: rest)
          = (hex_to_rgb ((sectionColors pal).getD (c % 3) ""))
            :: bgLoop pal (c + 1) rest by
        simp [bgLoop, apply_slide_background_of_section]]
      have hn : numSections (LayoutType.SECTION :: rest) = numSections rest + 1 := by
        simp [numSections]
      rw [hn, List.range_succ_eq_map]
      rw [List.zip_cons_cons, List.filter_cons_of_pos (by simp), List.map_cons]
      rw [bgLoop_sections pal rest (c + 1), List.map_cons, List.map_map]
      congr 1
      refine List.map_congr_left ?_
      intro k _
      simp only [Function.comp_apply]
      have hc : c + 1 + k = c + Nat.succ k := by omega
      rw [hc]
    · rw [show bgLoop pal c (lt :: rest)
          = (apply_slide_background pal c lt.value).1 :: bgLoop pal c rest by
        have h2 := apply_slide_background_of_ne_section pal c lt h
        simp [bgLoop, h2]]
      have hn : numSections (lt :: rest) = numSections rest := by
        simp [numSections, h]
      rw [hn]
      simp only [List.zip_cons_cons, List.filter_cons]
      rw [if_neg (by simp [h])]
      exact bgLoop_sections pal rest c

/-- Claim C1: with an applied theme the SECTION-slide backgrounds of one
deck generation follow the fixed cycle [accent, primary, secondary]: the
k-th SECTION slide gets the palette color at index k mod 3; the rotation
counter changes only on SECTION slides, and each deck generation starts the
loop with the counter reset to 0, so the cycle restarts at the accent color
for each new deck. -/
theorem claim_C1 :
    (∀ (pal : ColorPalette) (slides : List LayoutType),
      sectionBackgrounds pal slides
        = (List.range (numSections slides)).map
            (fun k => hex_to_rgb ((sectionColors pal).getD (k % 3) "")))
    ∧ (∀ (pal : ColorPalette) (c : Nat) (lt : LayoutType),
        (apply_slide_background pal c lt.value).2
          = if lt = LayoutType.SECTION then c + 1 else c)
    ∧ (∀ (pal : ColorPalette) (slides : List LayoutType),
        renderBackgrounds pal slides = bgLoop pal 0 slides) := by
  refine ⟨?_, ?_, ?_⟩
  · intro pal slides
    have h := bgLoop_sections pal slides 0
    simpa [sectionBackgrounds, renderBackgrounds] using h
  · intro pal c lt
    by_cases h : lt = LayoutType.SECTION
    · subst h
      rw [apply_slide_background_of_section]
      simp
    · rw [apply_slide_background_of_ne_section pal c lt h, if_neg h]
  · intro pal slides
    rfl

/-! ## Lemmas about layout resolution -/

lemma layoutFallback_isSome (layouts : List String) (h : layouts ≠ []) :
    (layoutFallback layouts).isSome := by
  have hpos : 0 < layouts.length := List.length_pos.mpr h
  by_cases h1 : 1 < layouts.length
  · unfold layoutFallback
    rw [if_pos h1]
    rfl
  · unfold layoutFallback
    rw [if_neg h1, if_pos hpos]
    rfl

lemma nameTierSearch_isSome (layouts : List String) (lt : LayoutType) (h : layouts ≠ []) :
    (nameTierSearch layouts lt).isSome := by
  cases hn : layoutNames lt with
  | none =>
    simp only [nameTierSearch, hn]
    exact layoutFallback_isSome layouts h
  | some cands =>
    cases hf : findByName layouts cands with
    | none =>
      simp only [nameTierSearch, hn, hf]
      exact layoutFallback_isSome layouts h
    | some i =>
      simp only [nameTierSearch, hn, hf]
      rfl

/-- Claim C4: with a non-empty slide-layout list, layout resolution is
total (never `None`), and with enough layouts the resolved index follows
the fixed mapping TITLE→0, TITLE_CONTENT→1, SECTION→2, TWO_COL→3, BLANK→6,
the remaining types (IMAGE_FOCUS, TABLE, CHART, CODE) resolving to index
1. -/
theorem claim_C4 :
    (∀ (layouts : List String) (lt : LayoutType), layouts ≠ [] →
      (get_layout layouts lt).isSome)
    ∧ (∀ (layouts : List String) (lt : LayoutType), 7 ≤ layouts.length →
        get_layout layouts lt = some (expectedLayoutIdx lt)) := by
  constructor
  · intro layouts lt h
    cases hm : layoutMapping lt with
    | none =>
      simp only [get_layout, hm]
      exact nameTierSearch_isSome layouts lt h
    | some idx =>
      simp only [get_layout, hm]
      split
      · rfl
      · exact nameTierSearch_isSome layouts lt h
  · intro layouts lt h7
    cases lt <;>
      simp only [get_layout, layoutMapping, expectedLayoutIdx, nameTierSearch,
        layoutNames, layoutFallback] <;>
      rw [if_pos (by omega)]

/-- Witness for claim C4 at concrete inputs. -/
theorem claim_C4_witness :
    7 ≤ (["A", "B", "C", "D", "E", "F", "G"] : List String).length
    ∧ get_layout ["A", "B", "C", "D", "E", "F", "G"] LayoutType.CODE
        = some (expectedLayoutIdx LayoutType.CODE)
    ∧ (get_layout ["Solo"] LayoutType.TABLE).isSome :=
  ⟨by decide, claim_C4.2 ["A", "B", "C", "D", "E", "F", "G"] LayoutType.CODE (by decide),
    claim_C4.1 ["Solo"] LayoutType.TABLE (by decide)⟩

/-! ## Claim C5: unknown layout names -/

lemma validateLayouts_eq_none :
    ∀ (fields : List String), (∃ v ∈ fields, parseLayoutField v = none) →
      validateLayouts fields = none
  | [], h => by simp at h
  | v :: rest, h => by
    cases hv : parseLayoutField v with
    | none =>
      cases hrest : validateLayouts rest <;> simp [validateLayouts, hv, hrest]
    | some lt =>
      obtain ⟨w, hw, hwn⟩ := h
      rcases List.mem_cons.mp hw with h1 | h1
      · subst h1
        exact absurd hv (by rw [hwn]; simp)
      · have hrest := validateLayouts_eq_none rest ⟨w, h1, hwn⟩
        simp [validateLayouts, hv, hrest]

/-- Counterexample to claim C5 as stated: a deck holding a slide whose
layout name "FANCY" matches no enumeration value does NOT generate; the
whole request is rejected with the failure envelope (`ok = False`, zero
slides) and no degradation warning is recorded. -/
theorem claim_C5_counterexample :
    parseLayoutField "FANCY" = none
    ∧ generate_tool ["TITLE", "FANCY"] = ⟨false, 0, []⟩ := by
  constructor
  · rfl
  · rfl

/-- Claim C5 as amended: a deck specification containing a slide whose
layout name fails the case-insensitive normalization and enum match is
rejected as a whole: pydantic validation raises, the tool returns the
failure envelope `ok = False` with zero slides and no warnings, and no
slide degrades to TITLE_CONTENT (the TITLE_CONTENT-with-warning fallback of
the renderer applies only to a valid layout type missing from the slide
document).  Normalization itself does map lowercase, space and hyphen
variants to enumeration values. -/
theorem claim_C5_amended :
    (∀ (fields : List String), (∃ v ∈ fields, parseLayoutField v = none) →
      generate_tool fields = ⟨false, 0, []⟩)
    ∧ parseLayoutField "title content" = some LayoutType.TITLE_CONTENT
    ∧ parseLayoutField "Title-Content" = some LayoutType.TITLE_CONTENT := by
  refine ⟨?_, rfl, rfl⟩
  intro fields h
  have hv := validateLayouts_eq_none fields h
  simp [generate_tool, hv]

/-- Witness for the amended claim C5 at a concrete deck. -/
theorem claim_C5_amended_witness :
    generate_tool ["TITLE", "FANCY"] = ⟨false, 0, []⟩ :=
  claim_C5_amended.1 ["TITLE", "FANCY"] ⟨"FANCY", by decide, by rfl⟩

/-! ## Claim C7: body-content grouping bug -/

/-- Evaluation of `_group_text_items_as_bullets` at the failing input of
claim C7: a bullets item followed by one plain text item.  The code
appends `content_items[0]` instead of the lone text item, so the text item
is dropped and the first item duplicated, contradicting both the claim and
the code's own comment "Single text item, keep as-is". -/
theorem claim_C7_code_eval :
    group_text_items_as_bullets [bulletsItem ["b"], textItem "t"]
      = [bulletsItem ["b"], bulletsItem ["b"]]
    ∧ decide (textItem "t" ∈ group_text_items_as_bullets [bulletsItem ["b"], textItem "t"])
        = false :=
  ⟨rfl, by decide⟩

/-! ## Claim C9: hex color parsing -/

lemma hexVal_le (c : Char) (h : isHexDig c = true) : hexVal c ≤ 15 := by
  simp only [isHexDig, decide_eq_true_eq] at h
  unfold hexVal
  rcases h with h | h | h
  · rw [if_pos h]
    omega
  · rw [if_neg (by omega), if_pos h]
    omega
  · rw [if_neg (by omega), if_neg (by omega)]
    omega

lemma pyIntHex2_of_hex (a b : Char) (ha : isHexDig a = true) (hb : isHexDig b = true) :
    pyIntHex2 [a, b] = some (16 * (hexVal a : Int) + hexVal b) := by
  simp [pyIntHex2, ha, hb]

lemma pyIntHex2_le_255 (g : List Char) (v : Int) (h : pyIntHex2 g = some v) : v ≤ 255 := by
  match g with
  | [] => simp [pyIntHex2] at h
  | [_] => simp [pyIntHex2] at h
  | _ :: _ :: _ :: _ => simp [pyIntHex2] at h
  | [c0, c1] =>
    simp only [pyIntHex2] at h
    split_ifs at h with hA hB hC hD hE
    · simp only [Option.some.injEq] at h
      simp only [Bool.and_eq_true] at hA
      have h0 := hexVal_le c0 hA.1
      have h1 := hexVal_le c1 hA.2
      omega
    · simp only [Option.some.injEq] at h
      simp only [Bool.and_eq_true] at hB
      have h1 := hexVal_le c1 hB.2
      omega
    · simp only [Option.some.injEq] at h
      omega
    · simp only [Option.some.injEq] at h
      simp only [Bool.and_eq_true] at hD
      have h1 := hexVal_le c1 hD.2
      omega
    · simp only [Option.some.injEq] at h
      simp only [Bool.and_eq_true] at hE
      have h0 := hexVal_le c0 hE.1
      omega

/-- Counterexample to claim C9 as stated: in `"+10000"` the first
2-character group `"+1"` is not a hexadecimal byte (`'+'` is not a hex
digit), so the claim requires black, but Python `int('+1', 16)` accepts the
sign and the function returns the color (1, 0, 0). -/
theorem claim_C9_counterexample :
    hex_to_rgb "+10000" = ((1, 0, 0) : RGB)
    ∧ isHexDig '+' = false
    ∧ decide (hex_to_rgb "+10000" = ((0, 0, 0) : RGB)) = false :=
  ⟨rfl, rfl, rfl⟩

lemma length_six_chars (h : List Char) (h6 : h.length = 6) :
    ∃ a b c d e f, h = [a, b, c, d, e, f] := by
  rcases h with _ | ⟨a, h⟩
  · simp at h6
  rcases h with _ | ⟨b, h⟩
  · simp at h6
  rcases h with _ | ⟨c, h⟩
  · simp at h6
  rcases h with _ | ⟨d, h⟩
  · simp at h6
  rcases h with _ | ⟨e, h⟩
  · simp at h6
  rcases h with _ | ⟨f, h⟩
  · simp at h6
  have : h = [] := by
    simp only [List.length_cons] at h6
    exact List.length_eq_zero.mp (by omega)
  exact ⟨a, b, c, d, e, f, by rw [this]⟩

lemma hexCore_some (h : List Char) (r g b : Int)
    (hr : pyIntHex2 (h.take 2) = some r) (hg : pyIntHex2 ((h.drop 2).take 2) = some g)
    (hb : pyIntHex2 ((h.drop 4).take 2) = some b)
    (h0r : 0 ≤ r) (h0g : 0 ≤ g) (h0b : 0 ≤ b) :
    hexCore h = ((r.toNat, g.toNat, b.toNat) : RGB) := by
  have hr255 := pyIntHex2_le_255 _ _ hr
  have hg255 := pyIntHex2_le_255 _ _ hg
  have hb255 := pyIntHex2_le_255 _ _ hb
  simp only [hexCore, hr, hg, hb]
  rw [if_pos ⟨h0r, hr255, h0g, hg255, h0b, hb255⟩]

lemma hexCore_none (h : List Char)
    (hor : pyIntHex2 (h.take 2) = none ∨ pyIntHex2 ((h.drop 2).take 2) = none
      ∨ pyIntHex2 ((h.drop 4).take 2) = none) :
    hexCore h = ((0, 0, 0) : RGB) := by
  rcases hor with h1 | h1 | h1
  · cases h2 : pyIntHex2 ((h.drop 2).take 2) <;>
      cases h3 : pyIntHex2 ((h.drop 4).take 2) <;>
      simp [hexCore, h1, h2, h3]
  · cases h2 : pyIntHex2 (h.take 2) <;>
      cases h3 : pyIntHex2 ((h.drop 4).take 2) <;>
      simp [hexCore, h1, h2, h3]
  · cases h2 : pyIntHex2 (h.take 2) <;>
      cases h3 : pyIntHex2 ((h.drop 2).take 2) <;>
      simp [hexCore, h1, h2, h3]

lemma hexCore_neg (h : List Char) (r g b : Int)
    (hr : pyIntHex2 (h.take 2) = some r) (hg : pyIntHex2 ((h.drop 2).take 2) = some g)
    (hb : pyIntHex2 ((h.drop 4).take 2) = some b)
    (hneg : r < 0 ∨ g < 0 ∨ b < 0) :
    hexCore h = ((0, 0, 0) : RGB) := by
  simp only [hexCore, hr, hg, hb]
  rw [if_neg]
  rintro ⟨h1, _, h3, _, h5, _⟩
  rcases hneg with hn | hn | hn <;> omega

lemma hex_to_rgb_eq_core (s : String) (h : List Char)
    (hh : s.data.dropWhile (· = '#') = h) (h6 : h.length = 6) :
    hex_to_rgb s = hexCore h := by
  unfold hex_to_rgb
  rw [hh, if_neg (by simp [h6])]

/-- Claim C9 as amended: hex color parsing is total; the input is stripped
of ALL leading `#` characters; a remainder that is not exactly 6 characters
long yields black; each 2-character group is parsed with Python base-16
integer semantics (which besides two hex digits also accept a single hex
digit with a sign or surrounding whitespace); if every group parses
non-negatively the components are the parsed values (for groups of two hex
digits, the byte value), and if any group fails to parse, or parses to a
negative value rejected by the `RGBColor` constructor, the result is
black. -/
theorem claim_C9_amended :
    (∀ s : String, (s.data.dropWhile (· = '#')).length ≠ 6 →
      hex_to_rgb s = ((0, 0, 0) : RGB))
    ∧ (∀ (s : String) (h : List Char), s.data.dropWhile (· = '#') = h →
        h.length = 6 → (∀ c ∈ h, isHexDig c) →
        hex_to_rgb s = ((hexByteVal (h.take 2), hexByteVal ((h.drop 2).take 2),
          hexByteVal ((h.drop 4).take 2)) : RGB))
    ∧ (∀ (s : String) (h : List Char) (r g b : Int), s.data.dropWhile (· = '#') = h →
        h.length = 6 → pyIntHex2 (h.take 2) = some r →
        pyIntHex2 ((h.drop 2).take 2) = some g → pyIntHex2 ((h.drop 4).take 2) = some b →
        0 ≤ r → 0 ≤ g → 0 ≤ b →
        hex_to_rgb s = ((r.toNat, g.toNat, b.toNat) : RGB))
    ∧ (∀ (s : String) (h : List Char), s.data.dropWhile (· = '#') = h → h.length = 6 →
        (pyIntHex2 (h.take 2) = none ∨ pyIntHex2 ((h.drop 2).take 2) = none
          ∨ pyIntHex2 ((h.drop 4).take 2) = none) →
        hex_to_rgb s = ((0, 0, 0) : RGB))
    ∧ (∀ (s : String) (h : List Char) (r g b : Int), s.data.dropWhile (· = '#') = h →
        h.length = 6 → pyIntHex2 (h.take 2) = some r →
        pyIntHex2 ((h.drop 2).take 2) = some g → pyIntHex2 ((h.drop 4).take 2) = some b →
        (r < 0 ∨ g < 0 ∨ b < 0) →
        hex_to_rgb s = ((0, 0, 0) : RGB)) := by
  refine ⟨?_, ?_, ?_, ?_, ?_⟩
  · intro s hne
    unfold hex_to_rgb
    rw [if_pos hne]
    rfl
  · intro s h hh h6 hhex
    obtain ⟨a, b, c, d, e, f, rfl⟩ := length_six_chars h h6
    have ha := hhex a (by simp)
    have hb := hhex b (by simp)
    have hc := hhex c (by simp)
    have hd := hhex d (by simp)
    have he := hhex e (by simp)
    have hf := hhex f (by simp)
    rw [hex_to_rgb_eq_core s _ hh h6]
    have g1 : pyIntHex2 (([a, b, c, d, e, f] : List Char).take 2)
        = some (16 * (hexVal a : Int) + hexVal b) := by
      simpa using pyIntHex2_of_hex a b ha hb
    have g2 : pyIntHex2 ((([a, b, c, d, e, f] : List Char).drop 2).take 2)
        = some (16 * (hexVal c : Int) + hexVal d) := by
      simpa using pyIntHex2_of_hex c d hc hd
    have g3 : pyIntHex2 ((([a, b, c, d, e, f] : List Char).drop 4).take 2)
        = some (16 * (hexVal e : Int) + hexVal f) := by
      simpa using pyIntHex2_of_hex e f he hf
    rw [hexCore_some [a, b, c, d, e, f] _ _ _ g1 g2 g3 (by omega) (by omega) (by omega)]
    have e1 : (16 * (hexVal a : Int) + hexVal b).toNat = 16 * hexVal a + hexVal b := by omega
    have e2 : (16 * (hexVal c : Int) + hexVal d).toNat = 16 * hexVal c + hexVal d := by omega
    have e3 : (16 * (hexVal e : Int) + hexVal f).toNat = 16 * hexVal e + hexVal f := by omega
    rw [e1, e2, e3]
    rfl
  · intro s h r g b hh h6 hr hg hb h0r h0g h0b
    rw [hex_to_rgb_eq_core s h hh h6]
    exact hexCore_some h r g b hr hg hb h0r h0g h0b
  · intro s h hh h6 hor
    rw [hex_to_rgb_eq_core s h hh h6]
    exact hexCore_none h hor
  · intro s h r g b hh h6 hr hg hb hneg
    rw [hex_to_rgb_eq_core s h hh h6]
    exact hexCore_neg h r g b hr hg hb hneg

/-- Witness for the amended claim C9 at concrete inputs. -/
theorem claim_C9_amended_witness :
    hex_to_rgb "xyz" = ((0, 0, 0) : RGB)
    ∧ hex_to_rgb "#a1b2c3" = ((hexByteVal ['a', '1'], hexByteVal ['b', '2'],
        hexByteVal ['c', '3']) : RGB) :=
  ⟨claim_C9_amended.1 "xyz" (by decide),
    claim_C9_amended.2.1 "#a1b2c3" ['a', '1', 'b', '2', 'c', '3'] (by decide) (by decide)
      (by decide)⟩

/-! ## Lemmas about the renderer slide loop -/

lemma filterMap_congr_mem {α β : Type} (l : List α) (f g : α → Option β)
    (h : ∀ a ∈ l, f a = g a) : l.filterMap f = l.filterMap g := by
  induction l with
  | nil => rfl
  | cons a l ih =>
    simp only [List.filterMap_cons]
    rw [h a (by simp)]
    cases hga : g a with
    | none => exact ih fun x hx => h x (by simp [hx])
    | some b => rw [ih fun x hx => h x (by simp [hx])]

lemma succCount_succ_right (fails : Nat → Bool) :
    ∀ (n i : Nat), succCount fails i (n + 1)
      = succCount fails i n + (if fails (i + n) then 0 else 1)
  | 0, i => by simp [succCount]
  | n + 1, i => by
    have ih := succCount_succ_right fails n (i + 1)
    have hidx : i + 1 + n = i + (n + 1) := by omega
    rw [hidx] at ih
    calc succCount fails i (n + 1 + 1)
        = (if fails i then 0 else 1) + succCount fails (i + 1) (n + 1) := rfl
      _ = (if fails i then 0 else 1)
          + (succCount fails (i + 1) n + if fails (i + (n + 1)) then 0 else 1) := by rw [ih]
      _ = ((if fails i then 0 else 1) + succCount fails (i + 1) n)
          + (if fails (i + (n + 1)) then 0 else 1) := by rw [Nat.add_assoc]
      _ = succCount fails i (n + 1) + (if fails (i + (n + 1)) then 0 else 1) := rfl

lemma succCount_le (fails : Nat → Bool) : ∀ (n i : Nat), succCount fails i n ≤ n
  | 0, _ => le_refl _
  | n + 1, i => by
    have ih := succCount_le fails n (i + 1)
    simp only [succCount]
    split <;> omega

lemma succCount_lt (fails : Nat → Bool) :
    ∀ (n i : Nat), (∃ j, j < n ∧ fails (i + j) = true) → succCount fails i n < n
  | 0, i, h => by
    obtain ⟨j, hj, _⟩ := h
    omega
  | n + 1, i, h => by
    obtain ⟨j, hj, hfj⟩ := h
    simp only [succCount]
    by_cases hf : fails i
    · have := succCount_le fails n (i + 1)
      rw [if_pos hf]
      omega
    · rw [if_neg hf]
      have hj0 : j ≠ 0 := by
        intro h0
        rw [h0] at hfj
        simp at hfj
        exact hf (by simpa using hfj)
      obtain ⟨j', rfl⟩ : ∃ j', j = j' + 1 := ⟨j - 1, by omega⟩
      have ih := succCount_lt fails n (i + 1) ⟨j', by omega, by
        have : i + 1 + j' = i + (j' + 1) := by omega
        rw [this]
        exact hfj⟩
      omega

lemma renderLoop_fst (fails : Nat → Bool) :
    ∀ (n i g : Nat), (renderLoop fails i g n).1 = g + succCount fails i n
  | 0, i, g => by simp [renderLoop, succCount]
  | n + 1, i, g => by
    simp only [renderLoop]
    by_cases hf : fails i
    · rw [if_pos hf]
      simp only [renderLoop_fst fails n (i + 1) g, succCount, if_pos hf]
      omega
    · rw [if_neg hf]
      simp only [renderLoop_fst fails n (i + 1) (g + 1), succCount, if_neg hf]
      omega

lemma renderLoop_warnings (fails : Nat → Bool) :
    ∀ (n i g : Nat), (renderLoop fails i g n).2.1
      = (List.range n).filterMap (fun k =>
          if fails (i + k) then some (failWarning (g + succCount fails i k + 1)) else none)
  | 0, i, g => by simp [renderLoop]
  | n + 1, i, g => by
    rw [List.range_succ_eq_map, List.filterMap_cons, List.filterMap_map]
    simp only [renderLoop]
    by_cases hf : fails i
    · rw [if_pos hf]
      have h0 : (if fails (i + 0) then
          some (failWarning (g + succCount fails i 0 + 1)) else none)
          = some (failWarning (g + 1)) := by
        simp [succCount, hf]
      rw [h0]
      simp only [List.cons.injEq, true_and]
      rw [renderLoop_warnings fails n (i + 1) g]
      refine filterMap_congr_mem _ _ _ ?_
      intro k _
      simp only [Function.comp_apply]
      have e1 : i + 1 + k = i + (k + 1) := by omega
      have e2 : succCount fails i (k + 1) = succCount fails (i + 1) k := by
        simp [succCount, hf]
      rw [e1]
      rw [show succCount fails (i + 1) k = succCount fails i (k + 1) from e2.symm]
    · rw [if_neg hf]
      have h0 : (if fails (i + 0) then
          some (failWarning (g + succCount fails i 0 + 1)) else none) = none := by
        simp [hf]
      rw [h0]
      rw [renderLoop_warnings fails n (i + 1) (g + 1)]
      refine filterMap_congr_mem _ _ _ ?_
      intro k _
      simp only [Function.comp_apply]
      have e1 : i + 1 + k = i + (k + 1) := by omega
      have e2 : g + 1 + succCount fails (i + 1) k = g + succCount fails i (k + 1) := by
        simp [succCount, hf]
        omega
      rw [e1, e2]

lemma renderLoop_numbers (fails : Nat → Bool) :
    ∀ (n i g : Nat), (renderLoop fails i g n).2.2
      = (List.range n).filterMap (fun k =>
          if fails (i + k) then none
          else some (i + k + 1, g + succCount fails i k + 1))
  | 0, i, g => by simp [renderLoop]
  | n + 1, i, g => by
    rw [List.range_succ_eq_map, List.filterMap_cons, List.filterMap_map]
    simp only [renderLoop]
    by_cases hf : fails i
    · rw [if_pos hf]
      have h0 : (if fails (i + 0) then none
          else some (i + 0 + 1, g + succCount fails i 0 + 1)) = (none : Option (Nat × Nat)) := by
        simp [hf]
      rw [h0]
      rw [renderLoop_numbers fails n (i + 1) g]
      refine filterMap_congr_mem _ _ _ ?_
      intro k _
      simp only [Function.comp_apply]
      have e1 : i + 1 + k = i + (k + 1) := by omega
      have e2 : succCount fails (i + 1) k = succCount fails i (k + 1) := by
        simp [succCount, hf]
      rw [e1, e2]
    · rw [if_neg hf]
      have h0 : (if fails (i + 0) then none
          else some (i + 0 + 1, g + succCount fails i 0 + 1))
          = some (i + 1, g + 1) := by
        simp [succCount, hf]
      rw [h0]
      simp only [List.cons.injEq, true_and]
      rw [renderLoop_numbers fails n (i + 1) (g + 1)]
      refine filterMap_congr_mem _ _ _ ?_
      intro k _
      simp only [Function.comp_apply]
      have e1 : i + 1 + k = i + (k + 1) := by omega
      have e2 : g + 1 + succCount fails (i + 1) k = g + succCount fails i (k + 1) := by
        simp [succCount, hf]
        omega
      rw [e1, e2]

/-- Counterexample to claim C8 as stated: in a 2-slide deck where both
slides raise, the slide at 1-based position 2 fails, yet no warning names
index 2 — both warnings read "Failed to generate slide 1", because the code
builds the message from `slides_generated + 1`, not from the slide's
position. -/
theorem claim_C8_counterexample :
    (fun _ : Nat => true) 1 = true
    ∧ (generate_presentation (fun _ => true) 2).warnings = [failWarning 1, failWarning 1]
    ∧ decide (failWarning 2 ∈ (generate_presentation (fun _ => true) 2).warnings) = false :=
  ⟨rfl, rfl, by decide⟩

/-- Claim C8 as amended: per-slide exceptions are caught locally, the
envelope keeps `ok = true`, `slides_generated` counts only the slides that
rendered successfully, generation proceeds past failures, and each failing
slide appends the warning "Failed to generate slide k" where k is one plus
the number of slides successfully generated so far — which equals the
failing slide's 1-based deck position exactly when no earlier slide
failed. -/
theorem claim_C8_amended (fails : Nat → Bool) (n : Nat) :
    (generate_presentation fails n).ok = true
    ∧ (generate_presentation fails n).slides_generated = succCount fails 0 n
    ∧ (generate_presentation fails n).warnings
        = (List.range n).filterMap (fun k =>
            if fails k then some (failWarning (succCount fails 0 k + 1)) else none) := by
  refine ⟨rfl, ?_, ?_⟩
  · have h := renderLoop_fst fails n 0 0
    simpa [generate_presentation] using h
  · have h := renderLoop_warnings fails n 0 0
    simp only [generate_presentation]
    rw [h]
    refine filterMap_congr_mem _ _ _ ?_
    intro k _
    simp

/-- Witness for the amended claim C8 at a concrete 2-slide deck in which
both slides fail. -/
theorem claim_C8_amended_witness :
    (generate_presentation (fun _ => true) 2).slides_generated
      = succCount (fun _ => true) 0 2 :=
  (claim_C8_amended (fun _ => true) 2).2.1

/-- Claim C10: the slide number drawn on each successfully rendered slide
equals the count of successfully rendered slides up to and including it
(`slides_generated` after the increment), not the slide's 1-based position
in the deck specification; whenever an earlier slide failed, the displayed
number is strictly smaller than the position. -/
theorem claim_C10 (fails : Nat → Bool) (n p d : Nat)
    (hmem : (p, d) ∈ (generate_presentation fails n).slideNumbers) :
    d = succCount fails 0 p ∧ ((∃ j, j + 1 < p ∧ fails j = true) → d < p) := by
  have h := renderLoop_numbers fails n 0 0
  simp only [generate_presentation] at hmem
  rw [h] at hmem
  obtain ⟨k, _, hk⟩ := List.mem_filterMap.mp hmem
  by_cases hf : fails k
  · simp [hf] at hk
  · simp only [Nat.zero_add] at hk
    rw [if_neg hf] at hk
    simp only [Option.some.injEq, Prod.mk.injEq] at hk
    obtain ⟨hp, hd⟩ := hk
    subst hp
    subst hd
    have hsnoc := succCount_succ_right fails k 0
    simp only [Nat.zero_add] at hsnoc
    rw [if_neg hf] at hsnoc
    constructor
    · omega
    · rintro ⟨j, hj, hfj⟩
      have hlt := succCount_lt fails (k + 1) 0 ⟨j, by omega, by simpa using hfj⟩
      omega

/-- Witness for claim C10: a 3-slide deck whose first slide fails; the
second input slide displays number 1, the count of successes up to it. -/
theorem claim_C10_witness :
    1 = succCount (fun j => j == 0) 0 2 :=
  (claim_C10 (fun j => j == 0) 3 2 1 (by decide)).1

/-! ## Lemmas about code chunking -/

lemma buildChunks_flatten (m : Nat) :
    ∀ (rest acc : List (List Char)), (buildChunks m acc rest).flatten = acc ++ rest
  | [], acc => by cases acc <;> simp [buildChunks]
  | line :: rest, acc => by
    simp only [buildChunks]
    by_cases hlen : m ≤ (acc ++ [line]).length
    · rw [if_pos hlen]
      simp only [List.flatten_cons, buildChunks_flatten m rest []]
      simp
    · rw [if_neg hlen]
      rw [buildChunks_flatten m rest (acc ++ [line])]
      simp

lemma buildChunks_chunk_ne_nil (m : Nat) :
    ∀ (rest acc : List (List Char)) (ch : List (List Char)),
      ch ∈ buildChunks m acc rest → ch ≠ []
  | [], acc, ch => by
    cases acc with
    | nil => simp [buildChunks]
    | cons a as =>
      intro hm
      simp only [buildChunks, List.mem_singleton] at hm
      subst hm
      simp
  | line :: rest, acc, ch => by
    intro hm
    simp only [buildChunks] at hm
    by_cases hlen : m ≤ (acc ++ [line]).length
    · rw [if_pos hlen] at hm
      rcases List.mem_cons.mp hm with h1 | h1
      · subst h1
        simp
      · exact buildChunks_chunk_ne_nil m rest [] ch h1
    · rw [if_neg hlen] at hm
      exact buildChunks_chunk_ne_nil m rest (acc ++ [line]) ch hm

lemma buildChunks_chunk_mem (m : Nat) :
    ∀ (rest acc : List (List Char)) (ch : List (List Char)) (a : List Char),
      ch ∈ buildChunks m acc rest → a ∈ ch → a ∈ acc ∨ a ∈ rest
  | [], acc, ch, a => by
    cases acc with
    | nil => simp [buildChunks]
    | cons x xs =>
      intro hm ha
      simp only [buildChunks, List.mem_singleton] at hm
      subst hm
      exact Or.inl ha
  | line :: rest, acc, ch, a => by
    intro hm ha
    simp only [buildChunks] at hm
    by_cases hlen : m ≤ (acc ++ [line]).length
    · rw [if_pos hlen] at hm
      rcases List.mem_cons.mp hm with h1 | h1
      · subst h1
        rcases List.mem_append.mp ha with h2 | h2
        · exact Or.inl h2
        · simp only [List.mem_singleton] at h2
          subst h2
          simp
      · rcases buildChunks_chunk_mem m rest [] ch a h1 ha with h2 | h2
        · simp at h2
        · simp [h2]
    · rw [if_neg hlen] at hm
      rcases buildChunks_chunk_mem m rest (acc ++ [line]) ch a hm ha with h2 | h2
      · rcases List.mem_append.mp h2 with h3 | h3
        · exact Or.inl h3
        · simp only [List.mem_singleton] at h3
          subst h3
          simp
      · simp [h2]

lemma buildChunks_dropLast_length (m : Nat) (hm : 0 < m) :
    ∀ (rest acc : List (List Char)), acc.length < m →
      ∀ ch ∈ (buildChunks m acc rest).dropLast, ch.length = m
  | [], acc, _ => by cases acc <;> simp [buildChunks]
  | line :: rest, acc, hacc => by
    simp only [buildChunks]
    by_cases hlen : m ≤ (acc ++ [line]).length
    · rw [if_pos hlen]
      have hex : (acc ++ [line]).length = m := by
        simp only [List.length_append, List.length_singleton] at hlen ⊢
        omega
      cases hb : buildChunks m [] rest with
      | nil => simp
      | cons c cs =>
        rw [List.dropLast_cons₂]
        intro ch hch
        rcases List.mem_cons.mp hch with h1 | h1
        · rw [h1]
          exact hex
        · have := buildChunks_dropLast_length m hm rest [] (by simpa using hm)
          rw [hb] at this
          exact this ch h1
    · rw [if_neg hlen]
      refine buildChunks_dropLast_length m hm rest (acc ++ [line]) ?_
      simp only [List.length_append, List.length_singleton] at hlen ⊢
      omega

/-! ## Lemmas about newline splitting and joining -/

lemma splitNl_ne_nil (l : List Char) : splitNl l ≠ [] := by
  induction l with
  | nil => simp [splitNl]
  | cons c rest ih =>
    simp only [splitNl]
    by_cases hc : c = '\n'
    · rw [if_pos hc]
      simp
    · rw [if_neg hc]
      cases h : splitNl rest <;> simp

lemma splitNl_no_newline (l : List Char) : ∀ a ∈ splitNl l, '\n' ∉ a := by
  induction l with
  | nil =>
    intro a ha
    simp only [splitNl, List.mem_singleton] at ha
    subst ha
    simp
  | cons c rest ih =>
    intro a ha
    simp only [splitNl] at ha
    by_cases hc : c = '\n'
    · rw [if_pos hc] at ha
      rcases List.mem_cons.mp ha with h1 | h1
      · subst h1
        simp
      · exact ih a h1
    · rw [if_neg hc] at ha
      cases h : splitNl rest with
      | nil => exact absurd h (splitNl_ne_nil rest)
      | cons l0 ls =>
        rw [h] at ha
        rcases List.mem_cons.mp ha with h1 | h1
        · subst h1
          intro hmem
          rcases List.mem_cons.mp hmem with h2 | h2
          · exact hc h2.symm
          · exact ih l0 (by rw [h]; simp) h2
        · exact ih a (by rw [h]; exact List.mem_cons_of_mem l0 h1)

lemma splitNl_of_no_newline (a : List Char) (h : '\n' ∉ a) : splitNl a = [a] := by
  induction a with
  | nil => rfl
  | cons c rest ih =>
    have hc : ¬ c = '\n' := fun hcc => h (by rw [hcc]; simp)
    have hrest : '\n' ∉ rest := fun hr => h (List.mem_cons_of_mem c hr)
    simp only [splitNl, if_neg hc, ih hrest]

lemma splitNl_append_newline (a r : List Char) (h : '\n' ∉ a) :
    splitNl (a ++ '\n' :: r) = a :: splitNl r := by
  induction a with
  | nil => simp [splitNl]
  | cons c rest ih =>
    have hc : ¬ c = '\n' := fun hcc => h (by rw [hcc]; simp)
    have hrest : '\n' ∉ rest := fun hr => h (List.mem_cons_of_mem c hr)
    show splitNl (c :: (rest ++ '\n' :: r)) = (c :: rest) :: splitNl r
    simp only [splitNl, if_neg hc]
    rw [ih hrest]

lemma splitNl_joinNl :
    ∀ ls : List (List Char), ls ≠ [] → (∀ a ∈ ls, '\n' ∉ a) →
      splitNl (joinNl ls) = ls
  | [], h, _ => absurd rfl h
  | [a], _, h => by
    simp only [joinNl]
    exact splitNl_of_no_newline a (h a (by simp))
  | a :: b :: rest, _, h => by
    rw [show joinNl (a :: b :: rest) = a ++ '\n' :: joinNl (b :: rest) from rfl]
    rw [splitNl_append_newline a _ (h a (by simp))]
    rw [splitNl_joinNl (b :: rest) (by simp) fun x hx => h x (List.mem_cons_of_mem a hx)]

set_option maxRecDepth 100000 in
/-- Claim C3: for every code string and positive line limit, splitting on
newlines: within the limit the result is one chunk equal to the original
string; beyond it the chunks partition the lines in order, every chunk
except possibly the last has exactly the limit of lines, and every chunk
(the last included) is non-empty.  In particular the 50-line script gives
exactly 2 chunks of 25 lines and the 10-line script gives one chunk equal
to the original text. -/
theorem claim_C3 :
    (∀ (code : String) (m : Nat), 0 < m →
      ((splitNl code.data).length ≤ m → split_code_into_chunks code m = [code])
      ∧ (m < (splitNl code.data).length →
          ((split_code_into_chunks code m).map fun c => splitNl c.data).flatten
              = splitNl code.data
          ∧ (∀ c ∈ (split_code_into_chunks code m).dropLast, (splitNl c.data).length = m)
          ∧ split_code_into_chunks code m ≠ []
          ∧ (∀ c ∈ split_code_into_chunks code m, splitNl c.data ≠ [])))
    ∧ (split_code_into_chunks code50 25).length = 2
    ∧ (∀ c ∈ split_code_into_chunks code50 25, (splitNl c.data).length = 25)
    ∧ split_code_into_chunks code10 25 = [code10] := by
  refine ⟨?_, by rfl, by decide, by rfl⟩
  intro code m hm
  constructor
  · intro hle
    unfold split_code_into_chunks
    rw [if_pos hle]
  · intro hgt
    have hneq : ¬ (splitNl code.data).length ≤ m := by omega
    have hchunks : split_code_into_chunks code m
        = (buildChunks m [] (splitNl code.data)).map fun ch => String.mk (joinNl ch) := by
      unfold split_code_into_chunks
      rw [if_neg hneq]
    have hch_ne : ∀ ch ∈ buildChunks m [] (splitNl code.data), ch ≠ [] :=
      fun ch h => buildChunks_chunk_ne_nil m _ [] ch h
    have hch_nonl : ∀ ch ∈ buildChunks m [] (splitNl code.data), ∀ a ∈ ch, '\n' ∉ a := by
      intro ch hch a ha
      rcases buildChunks_chunk_mem m _ [] ch a hch ha with h1 | h1
      · simp at h1
      · exact splitNl_no_newline code.data a h1
    have hsplit : ∀ ch ∈ buildChunks m [] (splitNl code.data),
        splitNl (String.mk (joinNl ch)).data = ch := by
      intro ch hch
      show splitNl (joinNl ch) = ch
      exact splitNl_joinNl ch (hch_ne ch hch) (hch_nonl ch hch)
    refine ⟨?_, ?_, ?_, ?_⟩
    · rw [hchunks, List.map_map]
      have hid : (buildChunks m [] (splitNl code.data)).map
          ((fun c : String => splitNl c.data) ∘ fun ch => String.mk (joinNl ch))
          = buildChunks m [] (splitNl code.data) := by
        have h1 : (buildChunks m [] (splitNl code.data)).map
            ((fun c : String => splitNl c.data) ∘ fun ch => String.mk (joinNl ch))
            = (buildChunks m [] (splitNl code.data)).map id :=
          List.map_congr_left fun ch hch => hsplit ch hch
        rw [h1, List.map_id]
      rw [hid]
      have hj := buildChunks_flatten m (splitNl code.data) []
      simpa using hj
    · intro c hc
      rw [hchunks, ← List.map_dropLast] at hc
      obtain ⟨ch, hch, rfl⟩ := List.mem_map.mp hc
      have hch' : ch ∈ buildChunks m [] (splitNl code.data) :=
        (List.dropLast_sublist _).subset hch
      rw [hsplit ch hch']
      exact buildChunks_dropLast_length m hm (splitNl code.data) [] (by simpa using hm) ch hch
    · rw [hchunks]
      intro hnil
      have hempty : buildChunks m [] (splitNl code.data) = [] := by
        cases hb : buildChunks m [] (splitNl code.data) with
        | nil => rfl
        | cons x xs =>
          rw [hb] at hnil
          simp at hnil
      have hj := buildChunks_flatten m (splitNl code.data) []
      rw [hempty] at hj
      simp only [List.flatten_nil, List.nil_append] at hj
      exact splitNl_ne_nil code.data hj.symm
    · intro c hc
      rw [hchunks] at hc
      obtain ⟨ch, hch, rfl⟩ := List.mem_map.mp hc
      rw [hsplit ch hch]
      exact hch_ne ch hch

/-- Witness for claim C3 at the 10-line script with the default limit. -/
theorem claim_C3_witness :
    split_code_into_chunks code10 25 = [code10] :=
  (claim_C3.1 code10 25 (by decide)).1 (by decide)

/-- Claim C6: normalizing the slide content `["a", "b"]` yields two
canonical text items, which pydantic validates to two text
`SlideContent` values, and the body-grouping step merges them into exactly
one bullets item `["a", "b"]`; normalizing `{"items": ["x"]}` yields
exactly one bullets item whose bullet list is `["x"]` (left unchanged by
grouping). -/
theorem claim_C6 :
    normalize_content (.list [.str "a", .str "b"])
        = .list [.dict [("type", .str "text"), ("text", .str "a")],
            .dict [("type", .str "text"), ("text", .str "b")]]
    ∧ slideContentsOfNorm (normalize_content (.list [.str "a", .str "b"]))
        = some [textItem "a", textItem "b"]
    ∧ group_text_items_as_bullets [textItem "a", textItem "b"] = [bulletsItem ["a", "b"]]
    ∧ normalize_content (.dict [("items", .list [.str "x"])])
        = .list [.dict [("bullets", .list [.str "x"]), ("type", .str "bullets")]]
    ∧ slideContentsOfNorm (normalize_content (.dict [("items", .list [.str "x"])]))
        = some [bulletsItem ["x"]]
    ∧ group_text_items_as_bullets [bulletsItem ["x"]] = [bulletsItem ["x"]] :=
  ⟨rfl, rfl, rfl, rfl, rfl, rfl⟩

/-! ## Lemmas about whitespace splitting -/

lemma splitWsAux_dropWhile (l : List Char) :
    splitWsAux [] (l.dropWhile pyIsSpace) = splitWsAux [] l := by
  induction l with
  | nil => rfl
  | cons c rest ih =>
    by_cases hc : pyIsSpace c
    · rw [List.dropWhile_cons, if_pos hc, ih]
      simp [splitWsAux, hc]
    · rw [List.dropWhile_cons, if_neg hc]

lemma splitWsAux_all_space :
    ∀ (ws : List Char), (∀ c ∈ ws, pyIsSpace c = true) →
      ∀ cur, splitWsAux cur ws = splitWsAux cur []
  | [], _, _ => rfl
  | w :: rest, h, cur => by
    have hw : pyIsSpace w = true := h w (by simp)
    have ih := splitWsAux_all_space rest fun c hc => h c (by simp [hc])
    cases cur with
    | nil =>
      calc splitWsAux [] (w :: rest) = splitWsAux [] rest := by simp [splitWsAux, hw]
        _ = splitWsAux [] [] := ih []
    | cons x xs =>
      calc splitWsAux (x :: xs) (w :: rest)
          = (x :: xs).reverse :: splitWsAux [] rest := by simp [splitWsAux, hw]
        _ = (x :: xs).reverse :: splitWsAux [] [] := by rw [ih []]
        _ = splitWsAux (x :: xs) [] := rfl

lemma splitWsAux_append_space (ws : List Char) (hws : ∀ c ∈ ws, pyIsSpace c = true) :
    ∀ (l cur : List Char), splitWsAux cur (l ++ ws) = splitWsAux cur l
  | [], cur => by simpa using splitWsAux_all_space ws hws cur
  | c :: rest, cur => by
    by_cases hc : pyIsSpace c
    · cases cur with
      | nil => simp [splitWsAux, hc, splitWsAux_append_space ws hws rest []]
      | cons x xs => simp [splitWsAux, hc, splitWsAux_append_space ws hws rest []]
    · simp [splitWsAux, hc, splitWsAux_append_space ws hws rest (c :: cur)]

lemma pySplitWs_rstrip (l : List Char) : pySplitWs (rstripWs l) = pySplitWs l := by
  have hdecomp : l = rstripWs l ++ (l.reverse.takeWhile pyIsSpace).reverse := by
    calc l = l.reverse.reverse := (List.reverse_reverse l).symm
      _ = (l.reverse.takeWhile pyIsSpace ++ l.reverse.dropWhile pyIsSpace).reverse := by
          rw [List.takeWhile_append_dropWhile]
      _ = (l.reverse.dropWhile pyIsSpace).reverse
          ++ (l.reverse.takeWhile pyIsSpace).reverse := by rw [List.reverse_append]
      _ = rstripWs l ++ (l.reverse.takeWhile pyIsSpace).reverse := rfl
  have hws : ∀ c ∈ (l.reverse.takeWhile pyIsSpace).reverse, pyIsSpace c = true := by
    intro c hc
    rw [List.mem_reverse] at hc
    exact List.mem_takeWhile_imp hc
  conv_rhs => rw [hdecomp]
  exact (splitWsAux_append_space _ hws (rstripWs l) []).symm

lemma pySplitWs_strip (l : List Char) : pySplitWs (stripWs l) = pySplitWs l :=
  calc pySplitWs (stripWs l) = pySplitWs (rstripWs l) := splitWsAux_dropWhile (rstripWs l)
    _ = pySplitWs l := pySplitWs_rstrip l

lemma firstIdxOf_take (ch : Char) :
    ∀ (l : List Char) (i : Nat), firstIdxOf ch l = some i →
      l.take (i + 1) = l.take i ++ [ch]
  | [], i, h => by simp [firstIdxOf] at h
  | c :: rest, i, h => by
    simp only [firstIdxOf] at h
    by_cases hc : c = ch
    · rw [if_pos hc] at h
      have hi : i = 0 := by
        simp only [Option.some.injEq] at h
        omega
      subst hi
      simp [hc]
    · rw [if_neg hc] at h
      cases hr : firstIdxOf ch rest with
      | none =>
        rw [hr] at h
        simp at h
      | some j =>
        rw [hr] at h
        simp at h
        subst h
        rw [show j + 1 + 1 = (j + 1) + 1 from rfl]
        rw [List.take_succ_cons, List.take_succ_cons]
        rw [firstIdxOf_take ch rest j hr]
        simp

lemma dash_eq_spec (b : List Char) : split_bullet_with_dash b = dashRuleSpec b := by
  cases hf : findSub b (' ' :: '-' :: ' ' :: []) with
  | none => simp only [split_bullet_with_dash, dashRuleSpec, hf]
  | some i =>
    simp only [split_bullet_with_dash, dashRuleSpec, hf]
    rw [pySplitWs_strip (b.take i)]

/-- Claim C2: the bold-prefix split applies the colon rule first (a `':'`
with 1-4 words before the first one); only when it does not match is the
dash rule tried, so a qualifying colon always beats a qualifying dash; a
prefix of 5 or more words disables a rule, and with no match the result is
`(None, None)`.  The embedded source function coincides with the rule
written from the specification on every input, and the three quoted
examples evaluate as stated. -/
theorem claim_C2 :
    (∀ b : List Char, split_bullet_for_bold b = splitForBoldSpec b)
    ∧ split_bullet_for_bold_str "Goal: Achieve success" = some ("Goal: ", "Achieve success")
    ∧ split_bullet_for_bold_str "This is way too many words before colon: Text" = none
    ∧ split_bullet_for_bold_str "Note: text - more" = some ("Note: ", "text - more") := by
  refine ⟨?_, by rfl, by rfl, by rfl⟩
  intro b
  cases hcol : firstIdxOf ':' b with
  | none =>
    have hc : split_bullet_with_colon b = none := by
      simp only [split_bullet_with_colon, hcol]
    simp only [split_bullet_for_bold, hc, splitForBoldSpec, hcol]
    exact dash_eq_spec b
  | some i =>
    by_cases hw : 1 ≤ (pySplitWs (b.take i)).length ∧ (pySplitWs (b.take i)).length ≤ 4
    · by_cases hpl : (stripWs (b.drop (i + 1))).isEmpty
      · have hc : split_bullet_with_colon b = some (b.take (i + 1), b.drop (i + 1)) := by
          simp only [split_bullet_with_colon, hcol]
          rw [pySplitWs_strip (b.take i), if_pos hw, if_pos hpl]
        have hspec : splitForBoldSpec b = some (b.take i ++ [':'], b.drop (i + 1)) := by
          simp only [splitForBoldSpec, hcol]
          rw [if_pos hw, if_pos hpl]
        simp only [split_bullet_for_bold, hc, hspec]
        rw [firstIdxOf_take ':' b i hcol]
      · have hc : split_bullet_with_colon b
            = some (b.take (i + 1) ++ [' '], lstripWs (b.drop (i + 1))) := by
          simp only [split_bullet_with_colon, hcol]
          rw [pySplitWs_strip (b.take i), if_pos hw, if_neg hpl]
        have hspec : splitForBoldSpec b
            = some (b.take i ++ (':' :: ' ' :: []), lstripWs (b.drop (i + 1))) := by
          simp only [splitForBoldSpec, hcol]
          rw [if_pos hw, if_neg hpl]
        simp only [split_bullet_for_bold, hc, hspec]
        rw [firstIdxOf_take ':' b i hcol]
        simp
    · have hc : split_bullet_with_colon b = none := by
        simp only [split_bullet_with_colon, hcol]
        rw [pySplitWs_strip (b.take i), if_neg hw]
      have hspec : splitForBoldSpec b = dashRuleSpec b := by
        simp only [splitForBoldSpec, hcol]
        rw [if_neg hw]
      simp only [split_bullet_for_bold, hc, hspec]
      exact dash_eq_spec b

end McpPptx
